import Mathlib

/-!
Verification development for the workflow execution engine of the
`automato-back` repository (`WorkflowProcessor.ts` and the HTTP route that
starts workflow runs).

The engine is embedded shallowly:
* JavaScript runtime values are modelled by the inductive type `Value`
  (JS `undefined` is modelled as `vNull`, and a JS reference-equality
  comparison between two objects/arrays is approximated as `false`,
  since distinct literals are distinct references).
* External, effectful action handlers (Instagram session calls, message
  processors, ...) are abstracted as an `Oracle` that either returns a
  result value or throws an error string, exactly as the `switch` in
  `executeAction` delegates to them.
* The asynchronous parts (logging, sleeping between retries) carry no
  data dependence and are dropped; everything else is transcribed
  statement by statement from the TypeScript source.
-/

namespace Automato

/-- JSON-like runtime values (JS `undefined` collapses to `vNull`). -/
inductive Value : Type where
  | vNull : Value
  | vBool : Bool → Value
  | vNum : Int → Value
  | vStr : String → Value
  | vArr : List Value → Value
  | vObj : List (String × Value) → Value
deriving Inhabited

open Value

/-- JS truthiness of a value (`NaN` does not arise in the modelled code). -/
def truthy : Value → Bool
  | vNull => false
  | vBool b => b
  | vNum n => n != 0
  | vStr s => s != ""
  | vArr _ => true
  | vObj _ => true

/-- First-match lookup in an object's field list (JS objects cannot hold
duplicate keys, so first-match agrees with the source). -/
def lookupKV : List (String × Value) → String → Option Value
  | [], _ => none
  | (k, v) :: rest, key => if k == key then some v else lookupKV rest key

/-- `obj[key] = v` on an object's field list: replace in place, else append. -/
def setKV : List (String × Value) → String → Value → List (String × Value)
  | [], key, v => [(key, v)]
  | (k, w) :: rest, key, v =>
    if k == key then (k, v) :: rest else (k, w) :: setKV rest key v

/-- Property access `value.field` where only plain objects expose fields
(used for `stepResult.success` and friends); `none` is JS `undefined`. -/
def getField : Value → String → Option Value
  | vObj fs, k => lookupKV fs k
  | _, _ => none

/-! JS string primitives, implemented structurally over the character
list so that concrete runs reduce definitionally. -/

/-- JS `s.startsWith(p)`. -/
def jsStartsWith (s p : String) : Bool := p.data.isPrefixOf s.data

/-- JS `s.endsWith(p)`. -/
def jsEndsWith (s p : String) : Bool := p.data.reverse.isPrefixOf s.data.reverse

/-- Drop the first `n` characters (the head side of JS `substring`). -/
def strDrop (s : String) (n : Nat) : String := String.mk (s.data.drop n)

/-- Drop the last `n` characters (the tail side of JS `substring`). -/
def strDropRight (s : String) (n : Nat) : String :=
  String.mk ((s.data.reverse.drop n).reverse)

/-- JS `s.trim()`. -/
def jsTrim (s : String) : String :=
  String.mk (((s.data.dropWhile Char.isWhitespace).reverse.dropWhile
    Char.isWhitespace).reverse)

/-- Accumulator for `split('.')`. -/
def splitDotAux : List Char → List Char → List String
  | [], acc => [String.mk acc.reverse]
  | c :: rest, acc =>
    if c == '.' then String.mk acc.reverse :: splitDotAux rest []
    else splitDotAux rest (c :: acc)

/-- JS `s.split('.')` (an empty string yields `[""]`, like the source's
`split`). -/
def jsSplitDot (s : String) : List String := splitDotAux s.data []

/-- Parse a digit run, left to right. -/
def digitsToNat : List Char → Nat → Option Nat
  | [], acc => some acc
  | c :: rest, acc =>
    if c.isDigit then digitsToNat rest (acc * 10 + (c.toNat - 48)) else none

/-- A JS array-index property name: a canonical decimal numeral
(`"0"`, `"1"`, ...; no leading zeros, no signs). -/
def jsCanonicalIndex? (k : String) : Option Nat :=
  match k.data with
  | [] => none
  | ['0'] => some 0
  | c :: rest => if c == '0' then none else digitsToNat (c :: rest) 0

/-- `value && typeof value === 'object' && key in value` followed by the
read `value[key]`, as in the template walker of `resolveValue`.  Arrays
expose `length` and their canonical index keys. -/
def getKeyJS : Value → String → Option Value
  | vObj fs, k => lookupKV fs k
  | vArr l, k =>
    if k == "length" then some (vNum l.length)
    else
      match jsCanonicalIndex? k with
      | some i => l.get? i
      | none => none
  | _, _ => none

/-- JS strict equality `===` on primitives; a comparison between two
objects/arrays is reference equality and is approximated as `false`
(distinct literals are distinct references in the modelled programs). -/
def strictEq : Value → Value → Bool
  | vNull, vNull => true
  | vBool a, vBool b => a == b
  | vNum a, vNum b => a == b
  | vStr a, vStr b => a == b
  | _, _ => false

/-- The `for (const key of keys)` walk inside `resolveValue`
(`WorkflowProcessor.ts:186-196` and `203-210`): a missing key at any
depth short-circuits to `null`. -/
def walkLoop : Value → List String → Value
  | v, [] => v
  | v, k :: ks =>
    match getKeyJS v k with
    | some v' => walkLoop v' ks
    | none => vNull

/-- Declarative dot-path lookup: `some` the value found at the path,
`none` when some key along the path is missing. -/
def walkPath : Value → List String → Option Value
  | v, [] => some v
  | v, k :: ks =>
    match getKeyJS v k with
    | some v' => walkPath v' ks
    | none => none

/-- `resolveValue(path, context, item?)` (`WorkflowProcessor.ts:164-213`)
restricted to string inputs (non-string inputs are returned unchanged by
the source's `typeof` guard and are handled by `resolveValueV` below).
The `!path` guard of the source is subsumed: `""` fails `startsWith`. -/
def resolveValue (path : String) (context : Value) (item : Option Value) : Value :=
  if !(jsStartsWith path "\x7b\x7b" && jsEndsWith path "\x7d\x7d") then vStr path
  else
    let clean := jsTrim (strDropRight (strDrop path 2) 2)
    if clean == "item" && item.isSome then
      item.getD vNull
    else if jsStartsWith clean "item." && item.isSome then
      walkLoop (item.getD vNull) (jsSplitDot (strDrop clean 5))
    else
      walkLoop context (jsSplitDot clean)

/-- `resolveValue` on an arbitrary runtime value: the source's
`typeof path !== 'string'` guard returns non-strings unchanged. -/
def resolveValueV (v : Value) (context : Value) (item : Option Value) : Value :=
  match v with
  | vStr s => resolveValue s context item
  | _ => v

/-- `resolveActionParams(params, context, item?)`
(`WorkflowProcessor.ts:216-234`): string params are resolved, elements of
array params are resolved when they are strings, everything else is
copied unchanged. -/
def resolveActionParams (params : List (String × Value)) (context : Value)
    (item : Option Value) : List (String × Value) :=
  params.map fun kv =>
    (kv.1,
      match kv.2 with
      | vStr s => resolveValue s context item
      | vArr l =>
        vArr (l.map fun x =>
          match x with
          | vStr s => resolveValue s context item
          | _ => x)
      | v => v)

/-- `params.key || default` (JS falsy fallback). -/
def paramOr (params : List (String × Value)) (key : String) (d : Value) : Value :=
  match lookupKV params key with
  | some v => if truthy v then v else d
  | none => d

/-- JS `typeof`, used in the `forEach` error message (`typeof null` is
`"object"`; arrays and objects are `"object"`). -/
def typeOf : Value → String
  | vNull => "object"
  | vBool _ => "boolean"
  | vNum _ => "number"
  | vStr _ => "string"
  | vArr _ => "object"
  | vObj _ => "object"

/-- A workflow action: its type tag, its params object, and — for
`forEach` — the nested `params.actions` list, which `resolveActionParams`
copies through unchanged (its elements are neither strings nor string
arrays). -/
inductive WAction : Type where
  | mk (type : String) (params : List (String × Value)) (subActions : List WAction)

def WAction.type : WAction → String
  | .mk t _ _ => t

def WAction.params : WAction → List (String × Value)
  | .mk _ p _ => p

def WAction.subActions : WAction → List WAction
  | .mk _ _ s => s

/-- `{ ...action, params: resolvedParams }`. -/
def withParams : WAction → List (String × Value) → WAction
  | .mk t _ subs, p => .mk t p subs

mutual
/-- Nesting depth of an action (only `forEach` nests); used to compute a
sufficient recursion fuel for `executeAction`. -/
def WAction.depth : WAction → Nat
  | .mk _ _ subs => depthList subs + 1

def depthList : List WAction → Nat
  | [] => 0
  | a :: as => a.depth + depthList as
end

/-- The externally-registered effectful action handlers (Instagram
session calls, message-processor registry, ...): given the action type
and its resolved params, either a result value or a thrown error. -/
def Oracle : Type := String → List (String × Value) → Except String Value

/-- The nested-action loop body of `forEach`
(`WorkflowProcessor.ts:559-583`): each sub-action's params are resolved
with the current item bound, dispatched, and a per-action record is
pushed; a failure is recorded but does not abort. -/
def runSubsG (exec : WAction → List (String × Value) → Except String Value)
    (subs : List WAction) (context item : Value) : List Value :=
  subs.map fun sub =>
    let rp := resolveActionParams sub.params context (some item)
    match exec sub rp with
    | .ok r =>
      vObj [("action", vStr sub.type), ("params", vObj rp),
            ("result", r), ("success", vBool true)]
    | .error e =>
      vObj [("action", vStr sub.type), ("params", vObj rp),
            ("error", vStr e), ("success", vBool false)]

/-- The item loop of `forEach` (`WorkflowProcessor.ts:552-590`),
processing items strictly in index order. -/
def runItemsG (exec : WAction → List (String × Value) → Except String Value)
    (subs : List WAction) (context : Value) : Nat → List Value → List Value
  | _, [] => []
  | i, item :: rest =>
    vObj [("item", item), ("index", vNum i),
          ("results", vArr (runSubsG exec subs context item))]
      :: runItemsG exec subs context (i + 1) rest

/-- The `if` action (`WorkflowProcessor.ts:502-538`): evaluate the
operator on the (already resolved) variable and report the boolean. -/
def runIfAction (params : List (String × Value)) (context : Value) : Value :=
  let varVal :=
    match lookupKV params "_resolvedVariable" with
    | some v => v
    | none => resolveValueV (paramOr params "variable" (vStr "")) context none
  let opVal := paramOr params "operator" (vStr "isNotEmpty")
  let value := (lookupKV params "value").getD vNull
  let conditionResult :=
    match opVal with
    | vStr "isNotEmpty" =>
      match varVal with
      | vNull => false
      | vStr "" => false
      | vArr [] => false
      | _ => true
    | vStr "isEmpty" =>
      match varVal with
      | vNull => true
      | vStr "" => true
      | vArr [] => true
      | _ => false
    | vStr "equals" => strictEq varVal value
    | vStr "greaterThan" =>
      match varVal, value with
      | vNum a, vNum b => a > b
      | _, _ => false
    | vStr "lessThan" =>
      match varVal, value with
      | vNum a, vNum b => a < b
      | _, _ => false
    | _ => false
  vObj [("success", vBool true), ("conditionResult", vBool conditionResult),
        ("variable", varVal), ("operator", opVal), ("value", value)]

/-- `executeAction` (`WorkflowProcessor.ts:272-716`), fuel-indexed so the
`forEach` recursion is structural.  Built-ins (`if`, `forEach`, `delay`)
are interpreted here; every other known action type performs the
source's parameter validation and then delegates to the oracle; an
unknown type hits the `default` throw.  The fuel only bounds `forEach`
nesting and `executeAction` below always supplies enough. -/
def execA (oracle : Oracle) : Nat → WAction → Value → Except String Value
  | 0, _, _ => .error "model: action nesting fuel exhausted"
  | fuel + 1, .mk t params subs, context =>
    match t with
    | "if" => .ok (runIfAction params context)
    | "forEach" =>
      let list := resolveValueV (paramOr params "list" (vStr "")) context none
      match list with
      | vArr l =>
        let fr := runItemsG (fun sub rp => execA oracle fuel (withParams sub rp) context)
          subs context 0 l
        .ok (vObj [("success", vBool true), ("processedItems", vNum fr.length),
                   ("results", vArr fr)])
      | other => .error ("forEach requer uma lista, mas recebeu: " ++ typeOf other)
    | "delay" =>
      if !truthy (paramOr params "duration" vNull) then
        .error "Parâmetro duration é obrigatório para delay"
      else
        .ok (vObj [("success", vBool true),
                   ("duration", (lookupKV params "duration").getD vNull)])
    | "sendDirectMessage" =>
      if !truthy (paramOr params "user" vNull) || !truthy (paramOr params "message" vNull) then
        .error "Parâmetros user e message são obrigatórios para sendDirectMessage"
      else oracle t params
    | "likePost" =>
      if !truthy (paramOr params "postId" vNull) then
        .error "Parâmetro postId ou postUrl é obrigatório para likePost"
      else oracle t params
    | "followUser" =>
      if !truthy (paramOr params "username" vNull) then
        .error "Parâmetro username é obrigatório para followUser"
      else oracle t params
    | "unfollowUser" =>
      if !truthy (paramOr params "username" vNull) then
        .error "Parâmetro username é obrigatório para unfollowUser"
      else oracle t params
    | "comment" =>
      if !truthy (paramOr params "postId" vNull) then
        .error "postId is required for comment action"
      else if !truthy (paramOr params "commentByAI" vNull)
          && !truthy (paramOr params "comment" vNull) then
        .error "O parâmetro \x22comment\x22 é obrigatório quando commentByAI não é usado"
      else oracle t params
    | "monitorMessages" => oracle t params
    | "monitorPosts" =>
      match lookupKV params "usernames" with
      | some (vArr (_ :: _)) => oracle t params
      | _ =>
        if truthy (paramOr params "username" vNull) then oracle t params
        else .error "Parâmetro username ou usernames é obrigatório para monitorPosts"
    | "startMessageProcessor" => oracle t params
    | "stopMessageProcessor" => oracle t params
    | "uploadPhoto" =>
      if !truthy (paramOr params "imagePath" vNull) then
        .error "Parâmetro imagePath é obrigatório para uploadPhoto"
      else
        match oracle t params with
        | .ok _ => .ok (vObj [("success", vBool true),
                              ("message", vStr "Foto enviada com sucesso")])
        | .error e => .error e
    | other => .error ("Tipo de ação não suportado: " ++ other)

/-- `executeAction` with sufficient fuel for the action's nesting. -/
def executeAction (oracle : Oracle) (a : WAction) (context : Value) :
    Except String Value :=
  execA oracle a.depth a context

/-- `WorkflowEdge` (`WorkflowProcessor.ts:55-60`). -/
structure WEdge : Type where
  id : String
  source : String
  target : String
  sourceHandle : Option String

/-- A step's `condition` field (`WorkflowProcessor.ts:66-69`); the type
tag is kept as a string exactly as the source compares it. -/
structure WCond : Type where
  type : String
  previousStep : Option String

/-- A step's `retry` field (`WorkflowProcessor.ts:70-73`). -/
structure WRetry : Type where
  maxAttempts : Int
  delayMs : Int

/-- `WorkflowStep` (`WorkflowProcessor.ts:62-74`). -/
structure WStep : Type where
  id : String
  name : String
  actions : List WAction
  condition : Option WCond
  retry : Option WRetry

/-- `Workflow.config` (`WorkflowProcessor.ts:83-87`); `logLevel` carries
no behaviour and is dropped. -/
structure WConfig : Type where
  stopOnError : Option Bool
  timeout : Option Int

/-- `Workflow` (`WorkflowProcessor.ts:76-88`). -/
structure Workflow : Type where
  id : String
  name : String
  instanceName : String
  steps : List WStep
  edges : List WEdge
  config : Option WConfig

/-- `evaluateCondition` (`WorkflowProcessor.ts:721-744`).  A missing or
falsy stored result yields `false`; `success`/`failure` compare the
stored result's `success` field with `=== true` / `=== false`. -/
def evaluateCondition (cond : WCond) (previousResults : List (String × Value)) : Bool :=
  if cond.type == "always" then true
  else
    match cond.previousStep with
    | none => true
    | some p =>
      if p == "" then true
      else
        match lookupKV previousResults p with
        | none => false
        | some r =>
          if !truthy r then false
          else if cond.type == "success" then
            strictEq ((getField r "success").getD vNull) (vBool true)
          else if cond.type == "failure" then
            strictEq ((getField r "success").getD vNull) (vBool false)
          else false

/-- The condition gate at the top of `executeStepWithContext`
(`WorkflowProcessor.ts:961-967`): `true` when the step has no condition
or its condition evaluates to true. -/
def condGate (step : WStep) (previousResults : List (String × Value)) : Bool :=
  match step.condition with
  | none => true
  | some c => evaluateCondition c previousResults

/-- The skipped-step result object, literally
`{ skipped: true, reason: 'condition_not_met' }`
(`WorkflowProcessor.ts:965`). -/
def skipObj : Value :=
  vObj [("skipped", vBool true), ("reason", vStr "condition_not_met")]

/-- One attempt's action loop (`WorkflowProcessor.ts:980-993`): each
action's params are resolved against `{ steps: previousResults }`
immediately before dispatch; the first failure aborts the rest of the
attempt.  Returns the grown `stepResults` accumulator and the thrown
error, if any (successful entries of the failed attempt are kept). -/
def runActions (oracle : Oracle) (actions : List WAction)
    (previousResults : List (String × Value)) (acc : List Value) :
    List Value × Option String :=
  match actions with
  | [] => (acc, none)
  | action :: rest =>
    let context := vObj [("steps", vObj previousResults)]
    let rp := resolveActionParams action.params context none
    match executeAction oracle (withParams action rp) context with
    | .ok r =>
      runActions oracle rest previousResults
        (acc ++ [vObj [("action", vStr action.type), ("params", vObj rp),
                       ("result", r), ("success", vBool true)]])
    | .error e => (acc, some e)

/-- The retry loop of `executeStepWithContext`
(`WorkflowProcessor.ts:974-1026`), with `remaining` iterations left and
`attemptsDone` attempts already failed.  Note the `stepResults`
accumulator persists across attempts, exactly as in the source. -/
def stepAttempts (oracle : Oracle) (step : WStep)
    (previousResults : List (String × Value)) :
    Nat → Nat → List Value → Value
  | 0, _, _ => vNull
  | remaining + 1, attemptsDone, acc =>
    let attempts := attemptsDone + 1
    match runActions oracle step.actions previousResults acc with
    | (acc', none) =>
      let result :=
        if acc'.length == 1 then
          ((acc'.head?.getD vNull |> fun b => (getField b "result").getD vNull))
        else vArr acc'
      vObj [("stepId", vStr step.id), ("stepName", vStr step.name),
            ("success", vBool true), ("attempts", vNum attempts),
            ("results", vArr acc'), ("result", result)]
    | (acc', some e) =>
      if remaining == 0 then
        vObj [("stepId", vStr step.id), ("stepName", vStr step.name),
              ("success", vBool false), ("attempts", vNum attempts),
              ("error", vStr e), ("results", vArr acc')]
      else
        stepAttempts oracle step previousResults remaining (attemptsDone + 1) acc'

/-- `step.retry?.maxAttempts || 1` (`WorkflowProcessor.ts:971`). -/
def effMaxAttempts (step : WStep) : Int :=
  match step.retry with
  | none => 1
  | some r => if r.maxAttempts == 0 then 1 else r.maxAttempts

/-- `executeStepWithContext` (`WorkflowProcessor.ts:957-1027`).  When the
`while` guard never holds (a negative `maxAttempts`), the source falls
off the function and returns `undefined`, modelled as `vNull`. -/
def executeStepWithContext (oracle : Oracle) (step : WStep)
    (previousResults : List (String × Value)) : Value :=
  if !condGate step previousResults then skipObj
  else
    let maxA := effMaxAttempts step
    if maxA ≤ 0 then vNull
    else stepAttempts oracle step previousResults maxA.toNat 0 []

/-- `findInitialStep` (`WorkflowProcessor.ts:901-912`). -/
def findInitialStep (w : Workflow) : Option String :=
  if w.edges.isEmpty then
    (w.steps.head?).map (·.id)
  else
    let stepsWithIncomingEdges := w.edges.map (·.target)
    match w.steps.find? (fun s => !(stepsWithIncomingEdges.contains s.id)) with
    | some s => some s.id
    | none => (w.steps.head?).map (·.id)

/-- `workflow.edges.filter(edge => edge.source === currentStepId)`. -/
def outgoingEdges (w : Workflow) (currentStepId : String) : List WEdge :=
  w.edges.filter (fun e => e.source == currentStepId)

/-- `stepResult.result && stepResult.result.conditionResult !== undefined`
(`WorkflowProcessor.ts:935`). -/
def hasCondResult (stepResult : Value) : Bool :=
  match getField stepResult "result" with
  | some r => truthy r && ((getField r "conditionResult").isSome)
  | none => false

/-- The edge predicate inside `getNextStep`
(`WorkflowProcessor.ts:933-945`): branch on `conditionResult` when the
outcome carries one, else on `success`; an edge with a falsy
`sourceHandle` is the default. -/
def edgeMatchesCode (stepResult : Value) (edge : WEdge) : Bool :=
  let isDefault :=
    match edge.sourceHandle with
    | none => true
    | some s => s == ""
  if hasCondResult stepResult then
    let cr := ((getField stepResult "result").getD vNull |> fun r =>
      (getField r "conditionResult").getD vNull)
    if truthy cr && edge.sourceHandle == some "onTrue" then true
    else if !truthy cr && edge.sourceHandle == some "onFalse" then true
    else isDefault
  else
    let s := (getField stepResult "success").getD vNull
    if truthy s && edge.sourceHandle == some "onTrue" then true
    else if !truthy s && edge.sourceHandle == some "onFalse" then true
    else isDefault

/-- JS `Array.findIndex`: the index of the first match, `-1` if none. -/
def jsFindIndex {α : Type} (l : List α) (p : α → Bool) : Int :=
  match l.findIdx? p with
  | some i => Int.ofNat i
  | none => -1

/-- `getNextStep` (`WorkflowProcessor.ts:917-952`).  With no edges,
sequential by declaration index (`findIndex` returning `-1` makes the
source read `steps[0]`, transcribed faithfully); with edges, zero
outgoing edges is terminal, one is followed unconditionally, several are
disambiguated by `edgeMatchesCode` with fallback to the first. -/
def getNextStep (w : Workflow) (currentStepId : String) (stepResult : Value) :
    Option String :=
  if w.edges.isEmpty then
    let currentIndex : Int := jsFindIndex w.steps (fun s => s.id == currentStepId)
    let len : Int := Int.ofNat w.steps.length
    if currentIndex < len - 1 then
      (w.steps.get? (currentIndex + 1).toNat).map (·.id)
    else none
  else
    match outgoingEdges w currentStepId with
    | [] => none
    | [e] => some e.target
    | e1 :: e2 :: rest =>
      some ((((e1 :: e2 :: rest).find? (edgeMatchesCode stepResult)).getD e1).target)

/-- `new Map(workflow.steps.map(step => [step.id, step]))` keeps the
last binding for a duplicated id, hence the reversed search. -/
def stepLookup (w : Workflow) (stepId : String) : Option WStep :=
  w.steps.reverse.find? (fun s => s.id == stepId)

/-- `workflow.config?.stopOnError !== false` (`WorkflowProcessor.ts:825`). -/
def stopOnErrorFlag (w : Workflow) : Bool :=
  match w.config with
  | none => true
  | some c =>
    match c.stopOnError with
    | some false => false
    | _ => true

/-- The fixed interruption sentinel written by `stopWorkflow` and
observed at each step boundary (`WorkflowProcessor.ts:795`). -/
def interruptSentinel : String := "Workflow interrompido pelo usuário"

/-- Mutable per-run state of `executeWorkflow`'s graph loop. -/
structure RunState : Type where
  executedSteps : List String
  failedSteps : List String
  results : List (String × Value)
  error : Option String
  visited : List String

def initRunState : RunState :=
  { executedSteps := [], failedSteps := [], results := [], error := none,
    visited := [] }

/-- The graph-driven `while` loop of `executeWorkflow`
(`WorkflowProcessor.ts:792-858`), fuel-indexed (the visited-set guard
makes `w.steps.length + 1` fuel sufficient — proved below).  `signal k`
models a `stopWorkflow` call having written the interruption sentinel
into the stored result before the k-th boundary check; the loop then
halts at that boundary.  `executeStepWithContext` is total in this
model, so the source's inner `catch` (reachable only if the logging
callback or an undefined step result throws) has no counterpart. -/
def wfLoopBody (oracle : Oracle) (w : Workflow) (signal : Nat → Bool)
    (recur : Nat → Option String → RunState → RunState)
    (k : Nat) (cid : String) (st : RunState) : RunState :=
  if st.visited.contains cid then st
  else if signal k then { st with error := some interruptSentinel }
  else
    match stepLookup w cid with
    | none => st
    | some step =>
      let st1 := { st with visited := cid :: st.visited }
      let sr := executeStepWithContext oracle step st1.results
      let st2 := { st1 with results := setKV st1.results step.id sr }
      if truthy ((getField sr "success").getD vNull) then
        recur (k + 1) (getNextStep w cid sr)
          { st2 with executedSteps := st2.executedSteps ++ [step.id] }
      else if !truthy ((getField sr "skipped").getD vNull) then
        let st3 := { st2 with failedSteps := st2.failedSteps ++ [step.id] }
        if stopOnErrorFlag w then st3
        else recur (k + 1) (getNextStep w cid sr) st3
      else
        recur (k + 1) (getNextStep w cid sr) st2

/-- The fuel-indexed iteration of `wfLoopBody`; the visited-set guard
makes `w.steps.length + 1` fuel sufficient (proved below). -/
def wfLoop (oracle : Oracle) (w : Workflow) (signal : Nat → Bool) :
    Nat → Nat → Option String → RunState → RunState
  | 0, _, _, st => st
  | _ + 1, _, none, st => st
  | fuel + 1, k, some cid, st =>
    wfLoopBody oracle w signal (wfLoop oracle w signal fuel) k cid st

/-- The number of step ids the loop may still visit: the measure that
shrinks at every recursive call of `wfLoop`. -/
def unvisitedCount (w : Workflow) (visited : List String) : Nat :=
  ((w.steps.map (·.id)).filter (fun x => !(visited.contains x))).length

/-- The finalized `WorkflowResult` (`WorkflowProcessor.ts:90-100`), with
the wall-clock fields dropped. -/
structure WorkflowResultM : Type where
  workflowId : String
  success : Bool
  executedSteps : List String
  failedSteps : List String
  results : List (String × Value)
  error : Option String

/-- `executeWorkflow` (`WorkflowProcessor.ts:749-896`).  `instOk` models
`ensureInstagramInstance` + the page-liveness check: its error is the
pre-loop `throw` caught by the outer `catch`, in which case the success
line 866 is never reached and `success` stays `false`.  The armed
`config.timeout` callback throws on the timer's own stack, which the
enclosing `try` can never observe (the process-level
`uncaughtException` handler merely logs it), so the run does not read
`config.timeout` at all. -/
def executeWorkflow (oracle : Oracle) (w : Workflow)
    (instOk : Except String Unit) (signal : Nat → Bool) : WorkflowResultM :=
  match instOk with
  | .error e =>
    { workflowId := w.id, success := false, executedSteps := [],
      failedSteps := [], results := [], error := some e }
  | .ok _ =>
    let st := wfLoop oracle w signal (w.steps.length + 1) 0 (findInitialStep w)
      initRunState
    { workflowId := w.id,
      success := (st.failedSteps.length == 0) && (decide (0 < st.executedSteps.length)),
      executedSteps := st.executedSteps,
      failedSteps := st.failedSteps,
      results := st.results,
      error := st.error }

/-- The valid action types of `validateWorkflow`
(`WorkflowProcessor.ts:1194`). -/
def validTypes : List String :=
  ["sendDirectMessage", "likePost", "followUser", "unfollowUser",
   "monitorMessages", "monitorPosts", "comment", "delay",
   "startMessageProcessor", "stopMessageProcessor", "uploadPhoto", "if",
   "forEach"]

/-- Per-action validation messages (`WorkflowProcessor.ts:1189-1198`). -/
def actionErrors (stepIdx aIdx : Nat) (a : WAction) : List String :=
  (if a.type == "" then
    ["Step " ++ toString (stepIdx + 1) ++ ", Ação " ++ toString (aIdx + 1)
      ++ ": tipo de ação é obrigatório"]
  else [])
  ++ (if a.type != "" && !(validTypes.contains a.type) then
    ["Step " ++ toString (stepIdx + 1) ++ ", Ação " ++ toString (aIdx + 1)
      ++ ": tipo de ação \x27" ++ a.type ++ "\x27 não é válido"]
  else [])

/-- Per-step validation messages (`WorkflowProcessor.ts:1179-1199`). -/
def stepErrors (i : Nat) (s : WStep) : List String :=
  (if s.id == "" || s.name == "" then
    ["Step " ++ toString (i + 1)
      ++ ": campos obrigatórios (id, name, actions) estão faltando"]
  else [])
  ++ (if s.actions.isEmpty then
    ["Step " ++ toString (i + 1) ++ ": deve ter pelo menos uma ação"]
  else [])
  ++ (s.actions.enum.flatMap fun ia => actionErrors i ia.1 ia.2)

structure WFValidation : Type where
  valid : Bool
  errors : List String

/-- `validateWorkflow` (`WorkflowProcessor.ts:1167-1205`).  Fields that
are syntactically mandatory in the model (lists are always arrays) keep
only their emptiness checks. -/
def validateWorkflow (w : Workflow) (instanceName : String) : WFValidation :=
  let errors :=
    (if w.id == "" || w.name == "" || instanceName == "" then
      ["Workflow inválido: campos obrigatórios (id, name, instanceName, steps) estão faltando"]
    else [])
    ++ (if w.steps.isEmpty then ["Workflow deve ter pelo menos um step"] else [])
    ++ (w.steps.enum.flatMap fun is => stepErrors is.1 is.2)
  { valid := errors.isEmpty, errors := errors }

/-- The server-side registry touched by the workflow-execute route:
the `runningWorkflows` map (only its key set matters here) and the
processor's result store. -/
structure ServerState : Type where
  runningWorkflows : List String
  results : List (String × WorkflowResultM)

/-- Synchronous responses of `POST /api/instagram/workflow/execute`. -/
inductive RouteResponse : Type where
  | rejected (status : Nat) (errorMsg : String)
  | started (workflowId : String)

/-- The synchronous part of the workflow-execute route
(`src/unnamed/part_008:483-537`), up to the point where the run is
registered and the asynchronous `executeWorkflow` promise is detached
(the promise's own effects happen after the response and are not part
of this function). -/
def workflowExecuteRoute (st : ServerState) (w : Workflow)
    (instanceName : String) (activeInstances : List String) :
    RouteResponse × ServerState :=
  if instanceName == "" then
    (.rejected 400 "Campo instanceName é obrigatório", st)
  else
    let validation := validateWorkflow w instanceName
    if !validation.valid then
      (.rejected 400 "Workflow inválido", st)
    else if st.runningWorkflows.contains w.id then
      (.rejected 409 ("Workflow \x27" ++ w.id ++ "\x27 já está em execução"), st)
    else if !(activeInstances.contains instanceName) then
      (.rejected 400 ("Instância para " ++ instanceName ++ " não está ativa"), st)
    else
      (.started w.id, { st with runningWorkflows := w.id :: st.runningWorkflows })

/-! ### Claim-side definitions

These follow the wording of the specification, to be compared with the
source-derived definitions above. -/

/-- Spec wording of the multi-edge selection rule: an edge matches the
computed branch boolean when its branch label is `onTrue` and the
boolean is true, or `onFalse` and the boolean is false; an edge with no
branch label is the default. -/
def claimEdgeMatch (b : Bool) (e : WEdge) : Bool :=
  (b && e.sourceHandle == some "onTrue")
    || (!b && e.sourceHandle == some "onFalse")
    || e.sourceHandle == none

mutual
/-- Spec wording of parameter resolution: template resolution applied to
every string leaf, recursing into lists, all non-string leaves
untouched. -/
def resolveDeepValue (context : Value) (item : Option Value) : Value → Value
  | vStr s => resolveValue s context item
  | vArr l => vArr (resolveDeepList context item l)
  | v => v

def resolveDeepList (context : Value) (item : Option Value) :
    List Value → List Value
  | [] => []
  | v :: vs => resolveDeepValue context item v :: resolveDeepList context item vs
end

/-- The spec-worded `resolveParams`: `resolveDeepValue` mapped over the
params object. -/
def resolveParamsDeepSpec (params : List (String × Value)) (context : Value)
    (item : Option Value) : List (String × Value) :=
  params.map fun kv => (kv.1, resolveDeepValue context item kv.2)

/-- One-level resolution of a single param value, as in the amended
claim: a string value is resolved; string elements directly inside an
array value are resolved; everything else (deeper nesting, objects,
other non-strings) is untouched. -/
def resolveOneLevelSpec (context : Value) (item : Option Value) : Value → Value
  | vStr s => resolveValue s context item
  | vArr l =>
    vArr (l.map fun x =>
      match x with
      | vStr s => resolveValue s context item
      | _ => x)
  | v => v

/-! ### Concrete fixtures used by the witnesses -/

/-- The spec's branching scenario: `s0` (a plain step), `s1` running an
`if` on `steps.s0.result.count > 5`, and edges `s1→s2` labelled
`onTrue`, `s1→s3` labelled `onFalse`. -/
def wfScenario : Workflow :=
  { id := "w6", name := "W6", instanceName := "me",
    steps := [
      { id := "s0", name := "S0",
        actions := [.mk "delay" [("duration", vNum 1)] []],
        condition := none, retry := none },
      { id := "s1", name := "S1",
        actions := [.mk "if"
          [("variable", vStr "\x7b\x7bsteps.s0.result.count\x7d\x7d"),
           ("operator", vStr "greaterThan"), ("value", vNum 5)] []],
        condition := none, retry := none },
      { id := "s2", name := "S2",
        actions := [.mk "delay" [("duration", vNum 1)] []],
        condition := none, retry := none },
      { id := "s3", name := "S3",
        actions := [.mk "delay" [("duration", vNum 1)] []],
        condition := none, retry := none }],
    edges := [
      { id := "e0", source := "s0", target := "s1", sourceHandle := none },
      { id := "e1", source := "s1", target := "s2", sourceHandle := some "onTrue" },
      { id := "e2", source := "s1", target := "s3", sourceHandle := some "onFalse" }],
    config := none }

/-- The `if` step of `wfScenario`. -/
def stepS1 : WStep :=
  { id := "s1", name := "S1",
    actions := [.mk "if"
      [("variable", vStr "\x7b\x7bsteps.s0.result.count\x7d\x7d"),
       ("operator", vStr "greaterThan"), ("value", vNum 5)] []],
    condition := none, retry := none }

/-- An oracle for which every externally-dispatched action throws. -/
def failingOracle : Oracle := fun _ _ => .error "boom"

/-- A step whose single external action always fails, with
`retry.maxAttempts = 3`. -/
def retryStep3 : WStep :=
  { id := "r1", name := "R1",
    actions := [.mk "likePost" [("postId", vStr "p")] []],
    condition := none,
    retry := some { maxAttempts := 3, delayMs := 5 } }

/-- An oracle failing exactly on `username = "b"`, for the P5 `forEach`
scenario. -/
def oracleFailB : Oracle := fun _ ps =>
  match lookupKV ps "username" with
  | some (vStr s) => if s == "b" then .error "boom" else .ok (vStr "ok")
  | _ => .ok (vStr "ok")

/-- The nested action of the P5 `forEach` scenario: follow the current
item. -/
def followItemAction : WAction :=
  .mk "followUser" [("username", vStr "\x7b\x7bitem\x7d\x7d")] []

/-- A workflow whose only step has a `success` condition on a step id
that does not exist, so every reached step is skipped. -/
def wfAllSkip : Workflow :=
  { id := "w10", name := "W10", instanceName := "me",
    steps := [
      { id := "a", name := "A",
        actions := [.mk "delay" [("duration", vNum 1)] []],
        condition := some { type := "success", previousStep := some "ghost" },
        retry := none }],
    edges := [], config := none }

/-- A structurally valid one-step workflow, used to exercise the
duplicate-run rejection. -/
def wfValid : Workflow :=
  { id := "w1", name := "W", instanceName := "me",
    steps := [
      { id := "a", name := "A",
        actions := [.mk "delay" [("duration", vNum 5)] []],
        condition := none, retry := none }],
    edges := [], config := none }

/-- A stored result for the already-running `w1`, to observe that a
rejected duplicate start leaves it untouched. -/
def storedResult : WorkflowResultM :=
  { workflowId := "w1", success := false, executedSteps := ["a"],
    failedSteps := [], results := [], error := none }

/-! ### Helper lemmas -/

/-- The source's early-return walk agrees with the declarative path
lookup: a missing key yields `null`, a found path yields its value. -/
theorem walkLoop_eq_walkPath (ks : List String) (v : Value) :
    walkLoop v ks = (walkPath v ks).getD vNull := by
  induction ks generalizing v with
  | nil => rfl
  | cons k ks ih =>
    simp only [walkLoop, walkPath]
    cases getKeyJS v k with
    | some v' => simpa using ih v'
    | none => rfl

/-- Unfolding `resolveValue` on a delimited path when neither `item`
special case fires. -/
theorem resolveValue_context_walk (path clean : String) (context : Value)
    (item : Option Value)
    (h1 : jsStartsWith path "\x7b\x7b" = true)
    (h2 : jsEndsWith path "\x7d\x7d" = true)
    (hclean : jsTrim (strDropRight (strDrop path 2) 2) = clean)
    (hg1 : (clean == "item" && item.isSome) = false)
    (hg2 : (jsStartsWith clean "item." && item.isSome) = false) :
    resolveValue path context item = (walkPath context (jsSplitDot clean)).getD vNull := by
  simp only [resolveValue, h1, h2, hclean, Bool.and_self, Bool.not_true,
    Bool.false_eq_true, if_false, hg1, hg2, walkLoop_eq_walkPath]

/-- Unfolding `resolveValue` on a delimited `item.`-prefixed path with a
loop item supplied. -/
theorem resolveValue_item_walk (path clean : String) (context it : Value)
    (h1 : jsStartsWith path "\x7b\x7b" = true)
    (h2 : jsEndsWith path "\x7d\x7d" = true)
    (hclean : jsTrim (strDropRight (strDrop path 2) 2) = clean)
    (hne : (clean == "item") = false)
    (hs : jsStartsWith clean "item." = true) :
    resolveValue path context (some it)
      = (walkPath it (jsSplitDot (strDrop clean 5))).getD vNull := by
  simp only [resolveValue, h1, h2, hclean, Bool.and_self, Bool.not_true,
    Bool.false_eq_true, if_false, hne, hs, Option.isSome_some, Bool.and_true,
    Bool.false_and, Bool.true_and, if_true, Option.getD_some,
    walkLoop_eq_walkPath]

/-- Unfolding `resolveValue` on the bare `item` reference with a loop
item supplied. -/
theorem resolveValue_item_self (path : String) (context it : Value)
    (h1 : jsStartsWith path "\x7b\x7b" = true)
    (h2 : jsEndsWith path "\x7d\x7d" = true)
    (hclean : jsTrim (strDropRight (strDrop path 2) 2) = "item") :
    resolveValue path context (some it) = it := by
  simp only [resolveValue, h1, h2, hclean, Bool.and_self, Bool.not_true,
    Bool.false_eq_true, if_false, Option.isSome_some, Bool.and_true,
    beq_self_eq_true, if_true, Option.getD_some]

/-! ### Claim C5 -/

/-- C5: for every template expression delimited by the reserved marker
pair and every context (and optional loop item), `resolveValue` is a
total function (so it never throws); when the bare `item` reference is
used with a loop item supplied it returns the item; otherwise, over the
selected root (the loop item for `item.`-prefixed paths, the context
for all others), a dot-path with a missing key at any depth resolves to
`null` and a fully present dot-path resolves to the value found at the
path. -/
theorem c5_resolveValue_delimited_never_throws (path clean : String)
    (context : Value) (item : Option Value)
    (h1 : jsStartsWith path "\x7b\x7b" = true)
    (h2 : jsEndsWith path "\x7d\x7d" = true)
    (hclean : jsTrim (strDropRight (strDrop path 2) 2) = clean) :
    ((clean = "item" → ∀ it, item = some it → resolveValue path context item = it)
     ∧ (∀ it, item = some it → clean ≠ "item" → jsStartsWith clean "item." = true →
         ((walkPath it (jsSplitDot (strDrop clean 5)) = none →
             resolveValue path context item = vNull)
          ∧ (∀ v, walkPath it (jsSplitDot (strDrop clean 5)) = some v →
             resolveValue path context item = v)))
     ∧ ((clean = "item" → item = none) →
        (jsStartsWith clean "item." = true → item = none) →
         ((walkPath context (jsSplitDot clean) = none →
             resolveValue path context item = vNull)
          ∧ (∀ v, walkPath context (jsSplitDot clean) = some v →
             resolveValue path context item = v)))) := by
  refine ⟨?_, ?_, ?_⟩
  · intro hit it hitem
    subst hitem
    exact resolveValue_item_self path context it h1 h2 (hit ▸ hclean)
  · intro it hitem hne hs
    subst hitem
    have hwalk := resolveValue_item_walk path clean context it h1 h2 hclean
      (by simpa using hne) hs
    constructor
    · intro hmiss; rw [hwalk, hmiss]; rfl
    · intro v hv; rw [hwalk, hv]; rfl
  · intro hA hB
    have hg1 : (clean == "item" && item.isSome) = false := by
      by_cases hc : clean = "item"
      · rw [hA hc]; simp
      · simp [hc]
    have hg2 : (jsStartsWith clean "item." && item.isSome) = false := by
      by_cases hs : jsStartsWith clean "item." = true
      · rw [hB hs]; simp
      · simp [hs]
    have hwalk := resolveValue_context_walk path clean context item h1 h2 hclean hg1 hg2
    constructor
    · intro hmiss; rw [hwalk, hmiss]; rfl
    · intro v hv; rw [hwalk, hv]; rfl

/-- Witness for C5: the spec's P6 example resolves
`steps.s1.result.posts` to `[1, 2]`, and an unknown path in the same
context resolves to `null`. -/
theorem c5_witness :
    resolveValue "\x7b\x7bsteps.s1.result.posts\x7d\x7d"
      (vObj [("steps", vObj [("s1", vObj [("result", vObj [("posts", vArr [vNum 1, vNum 2])])])])])
      none = vArr [vNum 1, vNum 2]
    ∧ resolveValue "\x7b\x7bsteps.s1.missing\x7d\x7d"
      (vObj [("steps", vObj [("s1", vObj [("result", vObj [("posts", vArr [vNum 1, vNum 2])])])])])
      none = vNull := by
  constructor
  · exact ((c5_resolveValue_delimited_never_throws
      "\x7b\x7bsteps.s1.result.posts\x7d\x7d" "steps.s1.result.posts" _ none
      rfl rfl rfl).2.2 (fun _ => rfl) (fun _ => rfl)).2
      (vArr [vNum 1, vNum 2]) rfl
  · exact ((c5_resolveValue_delimited_never_throws
      "\x7b\x7bsteps.s1.missing\x7d\x7d" "steps.s1.missing" _ none
      rfl rfl rfl).2.2 (fun _ => rfl) (fun _ => rfl)).1 rfl

/-! ### Claim C9 -/

/-- C9 counterexample: `resolveActionParams` does not recurse into
nested lists.  For the params object `{k: [["{{a}}"]]}` and context
`{a: 7}`, the string leaf `"{{a}}"` sits one list level too deep: the
spec-worded deep resolution replaces it by `7`, but the source leaves it
untouched, so the two disagree. -/
theorem c9_counterexample :
    resolveActionParams [("k", vArr [vArr [vStr "\x7b\x7ba\x7d\x7d"]])]
      (vObj [("a", vNum 7)]) none
    ≠ resolveParamsDeepSpec [("k", vArr [vArr [vStr "\x7b\x7ba\x7d\x7d"]])]
      (vObj [("a", vNum 7)]) none := by
  intro h
  have h1 : resolveActionParams [("k", vArr [vArr [vStr "\x7b\x7ba\x7d\x7d"]])]
      (vObj [("a", vNum 7)]) none
      = [("k", vArr [vArr [vStr "\x7b\x7ba\x7d\x7d"]])] := rfl
  have h2 : resolveParamsDeepSpec [("k", vArr [vArr [vStr "\x7b\x7ba\x7d\x7d"]])]
      (vObj [("a", vNum 7)]) none
      = [("k", vArr [vArr [vNum 7]])] := by
    simp [resolveParamsDeepSpec, resolveDeepValue, resolveDeepList]
    rfl
  rw [h1, h2] at h
  simp at h

/-- C9 (amended): `resolveActionParams` applies template resolution to
every string-valued parameter and to string elements directly inside an
array-valued parameter; deeper nesting (arrays within arrays, objects)
and all non-string leaves are left untouched — position by position, a
param `(k, v)` becomes `(k, resolveOneLevelSpec context item v)`. -/
theorem c9_resolveActionParams_one_level (params : List (String × Value))
    (context : Value) (item : Option Value) :
    (resolveActionParams params context item).length = params.length
    ∧ ∀ i kv, params.get? i = some kv →
        (resolveActionParams params context item).get? i
          = some (kv.1, resolveOneLevelSpec context item kv.2) := by
  constructor
  · simp [resolveActionParams]
  · intro i kv hkv
    have : (resolveActionParams params context item).get? i
        = (params.get? i).map (fun kv =>
            (kv.1,
              match kv.2 with
              | vStr s => resolveValue s context item
              | vArr l =>
                vArr (l.map fun x =>
                  match x with
                  | vStr s => resolveValue s context item
                  | _ => x)
              | v => v)) := by
      simp [resolveActionParams, List.get?_eq_getElem?, List.getElem?_map]
    rw [this, hkv]
    rcases kv with ⟨k, v⟩
    cases v <;> rfl

/-- Witness for C9's amended theorem at a concrete params object: a
top-level template string is resolved, a string inside a list is
resolved, and a number is untouched. -/
theorem c9_witness :
    [(("m", vStr "\x7b\x7ba\x7d\x7d") : String × Value)].get? 0
      = some ("m", vStr "\x7b\x7ba\x7d\x7d")
    ∧ (resolveActionParams [("m", vStr "\x7b\x7ba\x7d\x7d")]
        (vObj [("a", vNum 7)]) none).get? 0 = some ("m", vNum 7) := by
  refine ⟨rfl, ?_⟩
  have := (c9_resolveActionParams_one_level [("m", vStr "\x7b\x7ba\x7d\x7d")]
    (vObj [("a", vNum 7)]) none).2 0 ("m", vStr "\x7b\x7ba\x7d\x7d") rfl
  exact this

/-! ### Claim C6 -/

/-- `find?` only depends on the predicate's values on the list. -/
theorem findCongrOn {α : Type} (l : List α) (p q : α → Bool)
    (h : ∀ a ∈ l, p a = q a) : l.find? p = l.find? q := by
  induction l with
  | nil => rfl
  | cons a as ih =>
    have ha := h a (by simp)
    simp only [List.find?]
    rw [ha]
    cases q a
    · exact ih fun x hx => h x (by simp [hx])
    · rfl

/-- A nonempty filter forces a nonempty list. -/
theorem filter_nonempty_source {α : Type} (l : List α) (p : α → Bool)
    (x : α) (xs : List α) (h : l.filter p = x :: xs) : l.isEmpty = false := by
  cases l with
  | nil => simp at h
  | cons _ _ => rfl

/-- When the outcome carries a `conditionResult` boolean, the source's
edge predicate coincides with the claim's matching rule (assuming no
empty-string branch label, which the data model does not produce). -/
theorem edgeMatches_cond (sr r : Value) (b : Bool) (e : WEdge)
    (hr : getField sr "result" = some r) (htr : truthy r = true)
    (hcr : getField r "conditionResult" = some (vBool b))
    (hne : e.sourceHandle ≠ some "") :
    edgeMatchesCode sr e = claimEdgeMatch b e := by
  have hhc : hasCondResult sr = true := by
    simp [hasCondResult, hr, htr, hcr]
  simp only [edgeMatchesCode, claimEdgeMatch, hhc, if_true, hr,
    Option.getD_some, hcr]
  rcases e with ⟨eid, es, et, sh⟩
  rcases sh with _ | s
  · cases b <;> simp [truthy]
  · have hs : (s == "") = false := by
      rcases hbe : s == "" with _ | _
      · rfl
      · exact absurd (by simpa using congrArg (some ·) (eq_of_beq hbe)) hne
    cases b <;> simp [truthy, hs] <;>
      rcases hbe1 : s == "onTrue" with _ | _ <;>
      rcases hbe2 : s == "onFalse" with _ | _ <;>
        simp_all

/-- When the outcome carries no `conditionResult`, the source's edge
predicate matches the claim's rule applied to the outcome's `success`
boolean. -/
theorem edgeMatches_success (sr : Value) (b : Bool) (e : WEdge)
    (hnc : hasCondResult sr = false)
    (hs : getField sr "success" = some (vBool b))
    (hne : e.sourceHandle ≠ some "") :
    edgeMatchesCode sr e = claimEdgeMatch b e := by
  simp only [edgeMatchesCode, claimEdgeMatch, hnc, Bool.false_eq_true,
    if_false, hs, Option.getD_some]
  rcases e with ⟨eid, es, et, sh⟩
  rcases sh with _ | s
  · cases b <;> simp [truthy]
  · have hsb : (s == "") = false := by
      rcases hbe : s == "" with _ | _
      · rfl
      · exact absurd (by simpa using congrArg (some ·) (eq_of_beq hbe)) hne
    cases b <;> simp [truthy, hsb] <;>
      rcases hbe1 : s == "onTrue" with _ | _ <;>
      rcases hbe2 : s == "onFalse" with _ | _ <;>
        simp_all

/-- C6: for a step with several outgoing edges (and branch labels drawn
from the data model, i.e. never the empty string), `getNextStep`
selects the first edge matching the outcome's `conditionResult` boolean
when one is present, otherwise the first edge matching the outcome's
`success`; an unlabelled edge is the default; and when no edge matches,
it falls back to the first outgoing edge's target. -/
theorem c6_getNextStep_branching (w : Workflow) (cur : String) (sr : Value)
    (e1 e2 : WEdge) (rest : List WEdge)
    (hout : outgoingEdges w cur = e1 :: e2 :: rest)
    (hhandles : ∀ e ∈ e1 :: e2 :: rest, e.sourceHandle ≠ some "") :
    ((∀ r b, getField sr "result" = some r → truthy r = true →
        getField r "conditionResult" = some (vBool b) →
        getNextStep w cur sr
          = some ((((e1 :: e2 :: rest).find? (claimEdgeMatch b)).getD e1).target))
     ∧ (hasCondResult sr = false →
        ∀ b, getField sr "success" = some (vBool b) →
        getNextStep w cur sr
          = some ((((e1 :: e2 :: rest).find? (claimEdgeMatch b)).getD e1).target))) := by
  have hne : w.edges.isEmpty = false :=
    filter_nonempty_source w.edges _ e1 (e2 :: rest) hout
  have hcode : getNextStep w cur sr
      = some ((((e1 :: e2 :: rest).find? (edgeMatchesCode sr)).getD e1).target) := by
    simp only [getNextStep, hne, Bool.false_eq_true, if_false]
    rw [show outgoingEdges w cur = e1 :: e2 :: rest from hout]
  constructor
  · intro r b hr htr hcr
    rw [hcode,
      findCongrOn (e1 :: e2 :: rest) (edgeMatchesCode sr) (claimEdgeMatch b)
        (fun e he => edgeMatches_cond sr r b e hr htr hcr (hhandles e he))]
  · intro hnc b hs
    rw [hcode,
      findCongrOn (e1 :: e2 :: rest) (edgeMatchesCode sr) (claimEdgeMatch b)
        (fun e he => edgeMatches_success sr b e hnc hs (hhandles e he))]

/-- Witness for C6: in the spec's scenario, the `if` step's outcome on
`{s0: {result: {count: 10}}}` carries `conditionResult = true`, and the
navigator follows the `onTrue` edge to `s2`. -/
theorem c6_witness :
    getNextStep wfScenario "s1"
      (executeStepWithContext failingOracle stepS1
        [("s0", vObj [("result", vObj [("count", vNum 10)])])])
      = some "s2" := by
  have happ := (c6_getNextStep_branching wfScenario "s1"
    (executeStepWithContext failingOracle stepS1
      [("s0", vObj [("result", vObj [("count", vNum 10)])])])
    { id := "e1", source := "s1", target := "s2", sourceHandle := some "onTrue" }
    { id := "e2", source := "s1", target := "s3", sourceHandle := some "onFalse" }
    [] rfl
    (by intro e he; simp at he; rcases he with rfl | rfl <;> simp)).1
    (vObj [("success", vBool true), ("conditionResult", vBool true),
           ("variable", vNum 10), ("operator", vStr "greaterThan"),
           ("value", vNum 5)])
    true rfl rfl rfl
  exact happ

/-! ### Claim C7 -/

/-- When every attempt's action loop throws, the retry loop uses up all
remaining attempts and returns the source's failure object for the last
attempt, keeping the accumulated per-action successes. -/
theorem stepAttempts_all_fail (oracle : Oracle) (step : WStep)
    (prev : List (String × Value))
    (hfail : ∀ acc, ((runActions oracle step.actions prev acc).2).isSome = true) :
    ∀ rem done acc, ∃ e acc',
      stepAttempts oracle step prev (rem + 1) done acc
        = vObj [("stepId", vStr step.id), ("stepName", vStr step.name),
                ("success", vBool false), ("attempts", vNum (done + rem + 1 : Nat)),
                ("error", vStr e), ("results", vArr acc')] := by
  intro rem
  induction rem with
  | zero =>
    intro done acc
    have h := hfail acc
    rcases hra : runActions oracle step.actions prev acc with ⟨acc', err⟩
    rw [hra] at h
    rcases err with _ | e
    · simp at h
    · exact ⟨e, acc', by simp only [stepAttempts, hra]; rfl⟩
  | succ rem ih =>
    intro done acc
    have h := hfail acc
    rcases hra : runActions oracle step.actions prev acc with ⟨acc', err⟩
    rw [hra] at h
    rcases err with _ | e
    · simp at h
    · rcases ih (done + 1) acc' with ⟨e', acc'', hrec⟩
      refine ⟨e', acc'', ?_⟩
      have hstep : stepAttempts oracle step prev (rem + 1 + 1) done acc
          = stepAttempts oracle step prev (rem + 1) (done + 1) acc' := by
        simp only [stepAttempts, hra]
        rfl
      rw [hstep, hrec]
      have : done + 1 + rem + 1 = done + (rem + 1) + 1 := by omega
      rw [this]

/-- C7: a step with `retry.maxAttempts = n` (`n ≥ 1`) whose condition
gate passes and all of whose attempts fail returns the failure object:
`success = false`, `attempts = n`, the last attempt's error, and the
retained per-action successes accumulated across the failed attempts. -/
theorem c7_executeStep_retry_exhaustion (oracle : Oracle) (step : WStep)
    (prev : List (String × Value)) (n : Nat) (d : Int)
    (hretry : step.retry = some { maxAttempts := (n : Int), delayMs := d })
    (hn : 1 ≤ n)
    (hcond : condGate step prev = true)
    (hfail : ∀ acc, ((runActions oracle step.actions prev acc).2).isSome = true) :
    ∃ e acc, executeStepWithContext oracle step prev
      = vObj [("stepId", vStr step.id), ("stepName", vStr step.name),
              ("success", vBool false), ("attempts", vNum (n : Nat)),
              ("error", vStr e), ("results", vArr acc)] := by
  have hmax : effMaxAttempts step = (n : Int) := by
    simp only [effMaxAttempts, hretry]
    have : ((n : Int) == 0) = false := by
      simp only [beq_eq_false_iff_ne, ne_eq]
      omega
    simp [this]
  have hunfold : executeStepWithContext oracle step prev
      = stepAttempts oracle step prev ((n : Int)).toNat 0 [] := by
    simp only [executeStepWithContext, hcond, Bool.not_true, Bool.false_eq_true,
      if_false, hmax]
    rw [if_neg (show ¬ ((n : Int) ≤ 0) by omega)]
  have htn : ((n : Int)).toNat = n := by omega
  rcases Nat.exists_eq_add_of_le hn with ⟨rem, hrem⟩
  rcases stepAttempts_all_fail oracle step prev hfail rem 0 [] with ⟨e, acc', hval⟩
  refine ⟨e, acc', ?_⟩
  rw [hunfold, htn, show n = rem + 1 by omega, hval]
  have : 0 + rem + 1 = rem + 1 := by omega
  rw [this]

/-- Witness for C7: the spec's P4 scenario — `maxAttempts = 3` with an
always-failing action records `attempts = 3` and `success = false`. -/
theorem c7_witness :
    ∃ e acc, executeStepWithContext failingOracle retryStep3 []
      = vObj [("stepId", vStr "r1"), ("stepName", vStr "R1"),
              ("success", vBool false), ("attempts", vNum (3 : Nat)),
              ("error", vStr e), ("results", vArr acc)] :=
  c7_executeStep_retry_exhaustion failingOracle retryStep3 [] 3 5 rfl
    (by omega) rfl (fun _ => rfl)

/-! ### Claim C8 -/

/-- The `forEach` item loop produces one record per input item. -/
theorem runItemsG_length (exec : WAction → List (String × Value) → Except String Value)
    (subs : List WAction) (ctx : Value) :
    ∀ items i, (runItemsG exec subs ctx i items).length = items.length := by
  intro items
  induction items with
  | nil => intro i; rfl
  | cons item rest ih =>
    intro i
    simp only [runItemsG, List.length_cons, ih]

/-- The record at position `j` of the `forEach` item loop started at
index `i` is the record for the `j`-th input item, carrying index
`i + j` and that item's nested-action results. -/
theorem runItemsG_get (exec : WAction → List (String × Value) → Except String Value)
    (subs : List WAction) (ctx : Value) :
    ∀ items i j item, items.get? j = some item →
      (runItemsG exec subs ctx i items).get? j
        = some (vObj [("item", item), ("index", vNum (i + j : Nat)),
                      ("results", vArr (runSubsG exec subs ctx item))]) := by
  intro items
  induction items with
  | nil => intro i j item h; simp at h
  | cons hd rest ih =>
    intro i j item h
    cases j with
    | zero =>
      simp only [List.get?] at h
      cases h
      simp [runItemsG]
    | succ j =>
      simp only [List.get?] at h
      have := ih (i + 1) j item h
      simp only [runItemsG, List.get?, this]
      have harith : i + 1 + j = i + (j + 1) := by omega
      rw [harith]

/-- C8: a `forEach` action whose `list` param resolves to an array of
length `N` returns `{success: true, processedItems: N, results: [...]}`
where `results` has exactly one record per item, in index order, each
carrying the item, its index, and its nested-action outcomes — a
nested-action failure is recorded inside its item's record but never
shortens the loop. -/
theorem c8_forEach_processes_all_items (oracle : Oracle)
    (params : List (String × Value)) (subs : List WAction)
    (ctx : Value) (l : List Value)
    (hlist : resolveValueV (paramOr params "list" (vStr "")) ctx none = vArr l) :
    (executeAction oracle (.mk "forEach" params subs) ctx
      = .ok (vObj [("success", vBool true),
          ("processedItems", vNum (l.length : Nat)),
          ("results", vArr (runItemsG
            (fun sub rp => execA oracle (depthList subs) (withParams sub rp) ctx)
            subs ctx 0 l))]))
    ∧ ((runItemsG
          (fun sub rp => execA oracle (depthList subs) (withParams sub rp) ctx)
          subs ctx 0 l).length = l.length)
    ∧ (∀ j item, l.get? j = some item →
        (runItemsG
          (fun sub rp => execA oracle (depthList subs) (withParams sub rp) ctx)
          subs ctx 0 l).get? j
        = some (vObj [("item", item), ("index", vNum (j : Nat)),
            ("results", vArr (runSubsG
              (fun sub rp => execA oracle (depthList subs) (withParams sub rp) ctx)
              subs ctx item))])) := by
  refine ⟨?_, runItemsG_length _ subs ctx l 0, ?_⟩
  · simp only [executeAction, WAction.depth, execA, hlist]
    rw [runItemsG_length]
  · intro j item hj
    have := runItemsG_get
      (fun sub rp => execA oracle (depthList subs) (withParams sub rp) ctx)
      subs ctx l 0 j item hj
    simpa using this

/-- Witness for C8: the spec's P5 scenario — `forEach` over
`["a","b","c"]` where only the action for `"b"` fails yields
`processedItems = 3`, a failure recorded at index 1, and successes at
indices 0 and 2. -/
theorem c8_witness :
    (executeAction oracleFailB
        (.mk "forEach" [("list", vArr [vStr "a", vStr "b", vStr "c"])]
          [followItemAction]) (vObj [("steps", vObj [])])
      = .ok (vObj [("success", vBool true), ("processedItems", vNum (3 : Nat)),
          ("results", vArr (runItemsG
            (fun sub rp => execA oracleFailB (depthList [followItemAction])
              (withParams sub rp) (vObj [("steps", vObj [])]))
            [followItemAction] (vObj [("steps", vObj [])]) 0
            [vStr "a", vStr "b", vStr "c"]))]))
    ∧ runSubsG
        (fun sub rp => execA oracleFailB (depthList [followItemAction])
          (withParams sub rp) (vObj [("steps", vObj [])]))
        [followItemAction] (vObj [("steps", vObj [])]) (vStr "b")
      = [vObj [("action", vStr "followUser"),
               ("params", vObj [("username", vStr "b")]),
               ("error", vStr "boom"), ("success", vBool false)]]
    ∧ runSubsG
        (fun sub rp => execA oracleFailB (depthList [followItemAction])
          (withParams sub rp) (vObj [("steps", vObj [])]))
        [followItemAction] (vObj [("steps", vObj [])]) (vStr "a")
      = [vObj [("action", vStr "followUser"),
               ("params", vObj [("username", vStr "a")]),
               ("result", vStr "ok"), ("success", vBool true)]] := by
  refine ⟨?_, rfl, rfl⟩
  exact (c8_forEach_processes_all_items oracleFailB
    [("list", vArr [vStr "a", vStr "b", vStr "c"])] [followItemAction]
    (vObj [("steps", vObj [])]) [vStr "a", vStr "b", vStr "c"] rfl).1

/-! ### Loop-analysis helpers -/

theorem contains_iff_mem (l : List String) (x : String) :
    l.contains x = true ↔ x ∈ l := by
  simp [List.contains_iff_exists_mem_beq]

theorem length_filter_mono {α : Type} (l : List α) (p q : α → Bool)
    (h : ∀ x ∈ l, p x = true → q x = true) :
    (l.filter p).length ≤ (l.filter q).length := by
  induction l with
  | nil => simp
  | cons a as ih =>
    have ih' := ih fun x hx => h x (List.mem_cons_of_mem a hx)
    by_cases hpa : p a = true
    · have hqa := h a (List.mem_cons_self a as) hpa
      simp only [List.filter_cons, hpa, hqa, if_true, List.length_cons]
      omega
    · have hpa' : p a = false := by revert hpa; cases p a <;> simp
      simp only [List.filter_cons, hpa', Bool.false_eq_true, if_false]
      cases hqa : q a
      · simp only [Bool.false_eq_true, if_false]; exact ih'
      · simp only [if_true, List.length_cons]; omega

theorem length_filter_strict {α : Type} (l : List α) (p q : α → Bool)
    (h : ∀ x ∈ l, q x = true → p x = true)
    (a : α) (ha : a ∈ l) (hpa : p a = true) (hqa : q a = false) :
    (l.filter q).length < (l.filter p).length := by
  induction l with
  | nil => cases ha
  | cons b bs ih =>
    rcases List.mem_cons.mp ha with rfl | hb
    · simp only [List.filter_cons, hpa, hqa, if_true, Bool.false_eq_true,
        if_false, List.length_cons]
      have := length_filter_mono bs q p fun x hx => h x (List.mem_cons_of_mem a hx)
      omega
    · have h' := fun x hx => h x (List.mem_cons_of_mem b hx)
      cases hqb : q b
      · simp only [List.filter_cons, hqb, Bool.false_eq_true, if_false]
        cases hpb : p b
        · simp only [Bool.false_eq_true, if_false]
          exact ih h' hb
        · simp only [if_true, List.length_cons]
          have := ih h' hb
          omega
      · have hpb := h b (List.mem_cons_self b bs) hqb
        simp only [List.filter_cons, hqb, hpb, if_true, List.length_cons]
        have := ih h' hb
        omega

theorem unvisited_decrease (w : Workflow) (v : List String) (cid : String)
    (hmem : cid ∈ w.steps.map (·.id)) (hnv : v.contains cid = false) :
    unvisitedCount w (cid :: v) < unvisitedCount w v := by
  apply length_filter_strict _ _ _ ?imp cid hmem ?hpa ?hqa
  case imp =>
    intro x _ hq
    rcases hcv : v.contains x with _ | _
    · simp
    · exfalso
      have : (cid :: v).contains x = true := by
        rw [contains_iff_mem]
        exact List.mem_cons_of_mem cid ((contains_iff_mem v x).mp hcv)
      rw [this] at hq
      simp at hq
  case hpa =>
    show (!(v.contains cid)) = true
    rw [hnv]
    rfl
  case hqa =>
    have : (cid :: v).contains cid = true := by
      rw [contains_iff_mem]; exact List.mem_cons_self cid v
    simp [this]

theorem stepLookup_facts (w : Workflow) (cid : String) (step : WStep)
    (h : stepLookup w cid = some step) :
    step.id = cid ∧ cid ∈ w.steps.map (·.id) ∧ step ∈ w.steps := by
  unfold stepLookup at h
  have h1 := List.find?_some h
  have h2 := List.mem_of_find?_eq_some h
  have hid : step.id = cid := by simpa using h1
  have hmem : step ∈ w.steps := List.mem_reverse.mp h2
  exact ⟨hid, by rw [← hid]; exact List.mem_map_of_mem (·.id) hmem, hmem⟩

theorem lookupKV_eq_none (l : List (String × Value)) (p : String)
    (h : ∀ kv ∈ l, kv.1 ≠ p) : lookupKV l p = none := by
  induction l with
  | nil => rfl
  | cons kv rest ih =>
    have hne : (kv.1 == p) = false :=
      beq_eq_false_iff_ne.mpr (h kv (List.mem_cons_self kv rest))
    simp only [lookupKV, hne, Bool.false_eq_true, if_false]
    exact ih fun x hx => h x (List.mem_cons_of_mem kv hx)

theorem setKV_mem (l : List (String × Value)) (key : String) (v : Value) :
    ∀ kv ∈ setKV l key v, kv ∈ l ∨ kv = (key, v) := by
  induction l with
  | nil =>
    intro kv hkv
    simp only [setKV] at hkv
    right
    exact List.mem_singleton.mp hkv
  | cons hd rest ih =>
    intro kv hkv
    simp only [setKV] at hkv
    by_cases hk : (hd.1 == key) = true
    · rw [if_pos hk] at hkv
      rcases List.mem_cons.mp hkv with rfl | hkv'
      · right
        have : hd.1 = key := by simpa using hk
        rw [this]
      · left; exact List.mem_cons_of_mem hd hkv'
    · rw [if_neg hk] at hkv
      rcases List.mem_cons.mp hkv with rfl | hkv'
      · left; exact List.mem_cons_self _ _
      · rcases ih kv hkv' with h' | h'
        · left; exact List.mem_cons_of_mem hd h'
        · right; exact h'

/-- The loop body calls its continuation only on states whose visited
set has grown by the (previously unvisited, existing) current step id,
so any two continuations agreeing there give the same body result. -/
theorem wfLoopBody_congr (oracle : Oracle) (w : Workflow) (signal : Nat → Bool)
    (r1 r2 : Nat → Option String → RunState → RunState) (k : Nat) (cid : String)
    (st : RunState)
    (h : ∀ nxt st', st'.visited = cid :: st.visited →
        st.visited.contains cid = false →
        (stepLookup w cid).isSome = true →
        r1 (k + 1) nxt st' = r2 (k + 1) nxt st') :
    wfLoopBody oracle w signal r1 k cid st = wfLoopBody oracle w signal r2 k cid st := by
  unfold wfLoopBody
  by_cases h1 : st.visited.contains cid = true
  · rw [if_pos h1, if_pos h1]
  · have h1' : st.visited.contains cid = false := by
      revert h1; cases st.visited.contains cid <;> simp
    rw [if_neg h1, if_neg h1]
    by_cases h2 : signal k = true
    · rw [if_pos h2, if_pos h2]
    · rw [if_neg h2, if_neg h2]
      cases hs : stepLookup w cid with
      | none => rfl
      | some step =>
        have hfound : (stepLookup w cid).isSome = true := by rw [hs]; rfl
        dsimp only []
        by_cases h3 : truthy ((getField (executeStepWithContext oracle step
            st.results) "success").getD vNull) = true
        · rw [if_pos h3, if_pos h3]
          exact h _ _ rfl h1' hfound
        · rw [if_neg h3, if_neg h3]
          by_cases h4 : (!truthy ((getField (executeStepWithContext oracle step
              st.results) "skipped").getD vNull)) = true
          · rw [if_pos h4, if_pos h4]
            by_cases h5 : stopOnErrorFlag w = true
            · rw [if_pos h5, if_pos h5]
            · rw [if_neg h5, if_neg h5]
              exact h _ _ rfl h1' hfound
          · rw [if_neg h4, if_neg h4]
            exact h _ _ rfl h1' hfound

/-- One unit of extra fuel changes nothing once the fuel exceeds the
number of unvisited step ids: the loop has already halted. -/
theorem wfLoop_stable_succ (oracle : Oracle) (w : Workflow) (signal : Nat → Bool) :
    ∀ fuel k cur st, unvisitedCount w st.visited + 1 ≤ fuel →
      wfLoop oracle w signal (fuel + 1) k cur st
        = wfLoop oracle w signal fuel k cur st := by
  intro fuel
  induction fuel with
  | zero => intro k cur st h; exact absurd h (by omega)
  | succ fuel ih =>
    intro k cur st h
    cases cur with
    | none => rfl
    | some cid =>
      show wfLoopBody oracle w signal (wfLoop oracle w signal (fuel + 1)) k cid st
        = wfLoopBody oracle w signal (wfLoop oracle w signal fuel) k cid st
      apply wfLoopBody_congr
      intro nxt st' hv hnc hfound
      rcases Option.isSome_iff_exists.mp hfound with ⟨step, hstep⟩
      have hmem := (stepLookup_facts w cid step hstep).2.1
      have hdec : unvisitedCount w st'.visited < unvisitedCount w st.visited := by
        rw [hv]
        exact unvisited_decrease w st.visited cid hmem hnc
      exact ih (k + 1) nxt st' (by omega)

/-- Any amount of extra fuel beyond `unvisitedCount + 1` is irrelevant. -/
theorem wfLoop_stable_add (oracle : Oracle) (w : Workflow) (signal : Nat → Bool)
    (fuel k : Nat) (cur : Option String) (st : RunState)
    (h : unvisitedCount w st.visited + 1 ≤ fuel) :
    ∀ extra, wfLoop oracle w signal (fuel + extra) k cur st
      = wfLoop oracle w signal fuel k cur st := by
  intro extra
  induction extra with
  | zero => rfl
  | succ extra ih =>
    have : fuel + (extra + 1) = (fuel + extra) + 1 := by omega
    rw [this, wfLoop_stable_succ oracle w signal (fuel + extra) k cur st (by omega), ih]

/-- The loop preserves `executedSteps ⊆ visited` and its freedom from
duplicates. -/
theorem wfLoop_nodup (oracle : Oracle) (w : Workflow) (signal : Nat → Bool) :
    ∀ fuel k cur st,
      st.executedSteps.Nodup → (∀ x ∈ st.executedSteps, x ∈ st.visited) →
      ((wfLoop oracle w signal fuel k cur st).executedSteps.Nodup
       ∧ ∀ x ∈ (wfLoop oracle w signal fuel k cur st).executedSteps,
          x ∈ (wfLoop oracle w signal fuel k cur st).visited) := by
  intro fuel
  induction fuel with
  | zero => intro k cur st h1 h2; exact ⟨h1, h2⟩
  | succ fuel ih =>
    intro k cur st h1 h2
    cases cur with
    | none => exact ⟨h1, h2⟩
    | some cid =>
      have hred : wfLoop oracle w signal (fuel + 1) k (some cid) st
          = wfLoopBody oracle w signal (wfLoop oracle w signal fuel) k cid st := rfl
      rw [hred]
      unfold wfLoopBody
      by_cases hv : st.visited.contains cid = true
      · rw [if_pos hv]; exact ⟨h1, h2⟩
      · have hv' : st.visited.contains cid = false := by
          revert hv; cases st.visited.contains cid <;> simp
        have hnotmem : cid ∉ st.visited := by
          intro hmem
          rw [(contains_iff_mem st.visited cid).mpr hmem] at hv'
          cases hv'
        rw [if_neg hv]
        by_cases hsig : signal k = true
        · rw [if_pos hsig]; exact ⟨h1, h2⟩
        · rw [if_neg hsig]
          cases hs : stepLookup w cid with
          | none => exact ⟨h1, h2⟩
          | some step =>
            have hid := (stepLookup_facts w cid step hs).1
            dsimp only []
            by_cases h3 : truthy ((getField (executeStepWithContext oracle step
                st.results) "success").getD vNull) = true
            · rw [if_pos h3]
              apply ih
              · have hnotin : step.id ∉ st.executedSteps := by
                  rw [hid]; intro hin; exact hnotmem (h2 cid hin)
                simp [List.nodup_append, h1, hnotin]
              · intro x hx
                rcases List.mem_append.mp hx with hx' | hx'
                · exact List.mem_cons_of_mem cid (h2 x hx')
                · rw [List.mem_singleton.mp hx', hid]
                  exact List.mem_cons_self cid st.visited
            · rw [if_neg h3]
              have hsub : ∀ x ∈ st.executedSteps, x ∈ cid :: st.visited :=
                fun x hx => List.mem_cons_of_mem cid (h2 x hx)
              by_cases h4 : (!truthy ((getField (executeStepWithContext oracle step
                  st.results) "skipped").getD vNull)) = true
              · rw [if_pos h4]
                by_cases h5 : stopOnErrorFlag w = true
                · rw [if_pos h5]
                  exact ⟨h1, hsub⟩
                · rw [if_neg h5]
                  exact ih (k + 1) _ _ h1 hsub
              · rw [if_neg h4]
                exact ih (k + 1) _ _ h1 hsub

/-! ### Claim C1 -/

/-- C1: for every workflow run — any oracle, any instance-check
outcome, any cancellation signal — the finalized result has
`success = true` exactly when `failedSteps` is empty and
`executedSteps` is non-empty. -/
theorem c1_success_iff (oracle : Oracle) (w : Workflow)
    (instOk : Except String Unit) (signal : Nat → Bool) :
    (executeWorkflow oracle w instOk signal).success = true
      ↔ ((executeWorkflow oracle w instOk signal).failedSteps = []
          ∧ (executeWorkflow oracle w instOk signal).executedSteps ≠ []) := by
  cases instOk with
  | error e => simp [executeWorkflow]
  | ok u =>
    simp only [executeWorkflow, Bool.and_eq_true, beq_iff_eq, decide_eq_true_eq]
    rw [List.length_eq_zero, List.length_pos]

/-! ### Claim C3 -/

/-- C3: (i) the run's `executedSteps` never contains a duplicate id;
(ii) reaching an already-visited step id halts the traversal with the
state unchanged; (iii) the loop terminates even on a cyclic edge graph:
beyond the fuel `executeWorkflow` uses (one more than the number of
steps), extra fuel never changes the outcome. -/
theorem c3_no_revisit_terminates (oracle : Oracle) (w : Workflow)
    (signal : Nat → Bool) (instOk : Except String Unit) :
    ((executeWorkflow oracle w instOk signal).executedSteps.Nodup)
    ∧ (∀ fuel k st cid, st.visited.contains cid = true →
        wfLoop oracle w signal (fuel + 1) k (some cid) st = st)
    ∧ (∀ extra,
        wfLoop oracle w signal (w.steps.length + 1 + extra) 0 (findInitialStep w)
          initRunState
        = wfLoop oracle w signal (w.steps.length + 1) 0 (findInitialStep w)
          initRunState) := by
  refine ⟨?_, ?_, ?_⟩
  · cases instOk with
    | error e => simp [executeWorkflow]
    | ok u =>
      simp only [executeWorkflow]
      exact (wfLoop_nodup oracle w signal (w.steps.length + 1) 0
        (findInitialStep w) initRunState List.nodup_nil (by intro x hx; cases hx)).1
  · intro fuel k st cid hvis
    show wfLoopBody oracle w signal (wfLoop oracle w signal fuel) k cid st = st
    unfold wfLoopBody
    rw [if_pos hvis]
  · intro extra
    apply wfLoop_stable_add
    have : unvisitedCount w initRunState.visited ≤ w.steps.length := by
      unfold unvisitedCount initRunState
      calc ((w.steps.map (·.id)).filter
              (fun x => !(List.contains [] x))).length
          ≤ (w.steps.map (·.id)).length := List.length_filter_le _ _
        _ = w.steps.length := List.length_map _ _
    omega

/-- Witness for C3: a concrete run has duplicate-free `executedSteps`,
and the loop on a state that has already visited the current step id
returns that state unchanged. -/
theorem c3_witness :
    (executeWorkflow failingOracle wfScenario (.ok ()) (fun _ => false)).executedSteps.Nodup
    ∧ wfLoop failingOracle wfScenario (fun _ => false) 1 0 (some "s0")
        { executedSteps := [], failedSteps := [], results := [], error := none,
          visited := ["s0"] }
      = { executedSteps := [], failedSteps := [], results := [], error := none,
          visited := ["s0"] } :=
  ⟨(c3_no_revisit_terminates failingOracle wfScenario (fun _ => false) (.ok ())).1,
   (c3_no_revisit_terminates failingOracle wfScenario (fun _ => false) (.ok ())).2.1
     0 0 _ "s0" rfl⟩

/-! ### Claim C10 -/

/-- When every step of the workflow skips on any reachable context, the
loop folds only skip objects into the results and appends to neither
the executed nor the failed list. -/
theorem wfLoop_all_skip (oracle : Oracle) (w : Workflow) (signal : Nat → Bool)
    (hskip : ∀ step ∈ w.steps, ∀ prev,
        (∀ kv ∈ prev, ∃ s' ∈ w.steps, s'.id = kv.1) →
        executeStepWithContext oracle step prev = skipObj) :
    ∀ fuel k cur st,
      st.executedSteps = [] → st.failedSteps = [] →
      (∀ kv ∈ st.results, (∃ s' ∈ w.steps, s'.id = kv.1) ∧ kv.2 = skipObj) →
      ((wfLoop oracle w signal fuel k cur st).executedSteps = []
       ∧ (wfLoop oracle w signal fuel k cur st).failedSteps = []
       ∧ ∀ kv ∈ (wfLoop oracle w signal fuel k cur st).results,
           (∃ s' ∈ w.steps, s'.id = kv.1) ∧ kv.2 = skipObj) := by
  intro fuel
  induction fuel with
  | zero => intro k cur st h1 h2 h3; exact ⟨h1, h2, h3⟩
  | succ fuel ih =>
    intro k cur st h1 h2 h3
    cases cur with
    | none => exact ⟨h1, h2, h3⟩
    | some cid =>
      have hred : wfLoop oracle w signal (fuel + 1) k (some cid) st
          = wfLoopBody oracle w signal (wfLoop oracle w signal fuel) k cid st := rfl
      rw [hred]
      unfold wfLoopBody
      by_cases hv : st.visited.contains cid = true
      · rw [if_pos hv]; exact ⟨h1, h2, h3⟩
      · rw [if_neg hv]
        by_cases hsig : signal k = true
        · rw [if_pos hsig]; exact ⟨h1, h2, h3⟩
        · rw [if_neg hsig]
          cases hs : stepLookup w cid with
          | none => exact ⟨h1, h2, h3⟩
          | some step =>
            have hmem := (stepLookup_facts w cid step hs).2.2
            have hsr : executeStepWithContext oracle step st.results = skipObj :=
              hskip step hmem st.results fun kv hkv => (h3 kv hkv).1
            dsimp only []
            rw [hsr]
            rw [if_neg (show ¬(truthy ((getField skipObj "success").getD vNull) = true)
              from fun h => by cases h)]
            rw [if_neg (show ¬((!truthy ((getField skipObj "skipped").getD vNull)) = true)
              from fun h => by cases h)]
            apply ih
            · exact h1
            · exact h2
            · intro kv hkv
              rcases setKV_mem st.results step.id skipObj kv hkv with h' | h'
              · exact h3 kv h'
              · rw [h']
                exact ⟨⟨step, hmem, rfl⟩, rfl⟩

/-- C10: a step whose condition evaluates false returns exactly
`{skipped: true, reason: "condition_not_met"}` — no `stepId`,
`stepName` or `success` fields — and in a run whose every step carries
a `success` condition on a nonexistent step id, nothing is appended to
`executedSteps` or `failedSteps`, every stored step result is exactly
that skip object, and the run finalizes with `success = false`. -/
theorem c10_condition_skip (oracle : Oracle) (w : Workflow) (signal : Nat → Bool)
    (hcond : ∀ s ∈ w.steps, ∃ p,
        s.condition = some { type := "success", previousStep := some p }
        ∧ p ≠ "" ∧ ∀ s' ∈ w.steps, s'.id ≠ p) :
    ((∀ step prev c, step.condition = some c → evaluateCondition c prev = false →
        executeStepWithContext oracle step prev = skipObj)
     ∧ (executeWorkflow oracle w (.ok ()) signal).executedSteps = []
     ∧ (executeWorkflow oracle w (.ok ()) signal).failedSteps = []
     ∧ (executeWorkflow oracle w (.ok ()) signal).success = false
     ∧ ∀ kv ∈ (executeWorkflow oracle w (.ok ()) signal).results,
         kv.2 = skipObj) := by
  have hgen : ∀ step prev c, step.condition = some c →
      evaluateCondition c prev = false →
      executeStepWithContext oracle step prev = skipObj := by
    intro step prev c hc heval
    simp [executeStepWithContext, condGate, hc, heval]
  have hskip : ∀ step ∈ w.steps, ∀ prev,
      (∀ kv ∈ prev, ∃ s' ∈ w.steps, s'.id = kv.1) →
      executeStepWithContext oracle step prev = skipObj := by
    intro step hstep prev hdom
    obtain ⟨p, hc, hp, hghost⟩ := hcond step hstep
    have hlook : lookupKV prev p = none := by
      apply lookupKV_eq_none
      intro kv hkv
      obtain ⟨s', hs', hid⟩ := hdom kv hkv
      rw [← hid]
      exact hghost s' hs'
    have heval : evaluateCondition { type := "success", previousStep := some p }
        prev = false := by
      simp [evaluateCondition, beq_eq_false_iff_ne.mpr hp, hlook]
    exact hgen step prev _ hc heval
  have hrun := wfLoop_all_skip oracle w signal hskip (w.steps.length + 1) 0
    (findInitialStep w) initRunState rfl rfl (by intro kv hkv; cases hkv)
  refine ⟨hgen, ?_, ?_, ?_, ?_⟩
  · exact hrun.1
  · exact hrun.2.1
  · simp only [executeWorkflow]
    rw [hrun.2.1, hrun.1]
    rfl
  · intro kv hkv
    exact (hrun.2.2 kv hkv).2

/-- Witness for C10: the one-step workflow whose condition references a
nonexistent step finalizes with nothing executed, nothing failed, the
bare skip object stored, and `success = false`. -/
theorem c10_witness :
    (executeWorkflow failingOracle wfAllSkip (.ok ()) (fun _ => false)).executedSteps = []
    ∧ (executeWorkflow failingOracle wfAllSkip (.ok ()) (fun _ => false)).failedSteps = []
    ∧ (executeWorkflow failingOracle wfAllSkip (.ok ()) (fun _ => false)).success = false
    ∧ ∀ kv ∈ (executeWorkflow failingOracle wfAllSkip (.ok ()) (fun _ => false)).results,
        kv.2 = skipObj := by
  have h := c10_condition_skip failingOracle wfAllSkip (fun _ => false) ?hc
  case hc =>
    intro s hs
    refine ⟨"ghost", ?_, ?_, ?_⟩
    · simp only [wfAllSkip, List.mem_singleton] at hs
      rw [hs]
    · decide
    · intro s' hs'
      simp only [wfAllSkip, List.mem_singleton] at hs'
      rw [hs']
      decide
  exact ⟨h.2.1, h.2.2.1, h.2.2.2.1, h.2.2.2.2⟩

/-! ### Claim C2 -/

/-- C2: submitting a workflow whose id is already in the running
registry is rejected synchronously with the 409 duplicate-run error,
and the server state — in particular the stored result of the
already-running workflow — is returned unchanged. -/
theorem c2_duplicate_run_rejected (st : ServerState) (w : Workflow)
    (instanceName : String) (activeInstances : List String)
    (hinst : instanceName ≠ "")
    (hvalid : (validateWorkflow w instanceName).valid = true)
    (hdup : st.runningWorkflows.contains w.id = true) :
    workflowExecuteRoute st w instanceName activeInstances
      = (.rejected 409 ("Workflow \x27" ++ w.id ++ "\x27 já está em execução"), st) := by
  unfold workflowExecuteRoute
  rw [if_neg (show ¬((instanceName == "") = true) by simpa using hinst)]
  dsimp only []
  rw [hvalid]
  rw [if_neg (show ¬((!true) = true) from fun h => by cases h)]
  rw [if_pos hdup]

/-- Witness for C2: starting `w1` while `w1` is running returns the 409
duplicate-run response and leaves the registry and the stored result of
the running `w1` exactly as they were. -/
theorem c2_witness :
    workflowExecuteRoute
        { runningWorkflows := ["w1"], results := [("w1", storedResult)] }
        wfValid "me" ["me"]
      = (.rejected 409 "Workflow \x27w1\x27 já está em execução",
         { runningWorkflows := ["w1"], results := [("w1", storedResult)] }) :=
  c2_duplicate_run_rejected
    { runningWorkflows := ["w1"], results := [("w1", storedResult)] }
    wfValid "me" ["me"] (by decide) rfl rfl

/-! ### Claim C4 -/

/-- `wfLoop` reads the workflow only through its steps, edges and
`stopOnError` flag. -/
theorem wfLoop_w_congr (oracle : Oracle) (signal : Nat → Bool)
    (w1 w2 : Workflow)
    (hsteps : w1.steps = w2.steps) (hedges : w1.edges = w2.edges)
    (hflag : stopOnErrorFlag w1 = stopOnErrorFlag w2) :
    ∀ fuel k cur st, wfLoop oracle w1 signal fuel k cur st
      = wfLoop oracle w2 signal fuel k cur st := by
  have hsl : ∀ cid, stepLookup w1 cid = stepLookup w2 cid := by
    intro cid; unfold stepLookup; rw [hsteps]
  have hgn : ∀ cid sr, getNextStep w1 cid sr = getNextStep w2 cid sr := by
    intro cid sr
    unfold getNextStep outgoingEdges jsFindIndex
    rw [hsteps, hedges]
  intro fuel
  induction fuel with
  | zero => intro k cur st; rfl
  | succ fuel ih =>
    intro k cur st
    cases cur with
    | none => rfl
    | some cid =>
      show wfLoopBody oracle w1 signal (wfLoop oracle w1 signal fuel) k cid st
        = wfLoopBody oracle w2 signal (wfLoop oracle w2 signal fuel) k cid st
      have h1 : wfLoopBody oracle w1 signal (wfLoop oracle w1 signal fuel) k cid st
          = wfLoopBody oracle w2 signal (wfLoop oracle w1 signal fuel) k cid st := by
        unfold wfLoopBody
        rw [hsl cid, hflag]
        simp only [hgn]
      rw [h1]
      exact wfLoopBody_congr oracle w2 signal _ _ k cid st
        fun nxt st' _ _ _ => ih (k + 1) nxt st'

/-- C4 (evidence of the divergence): in the modelled synchronous
semantics — where the armed timer's `throw` can never reach the run's
`try`/`catch` (it surfaces on the timer's own stack and is merely
logged by the process-level `uncaughtException` handler) — the
configured timeout has no effect whatsoever on the run: the result with
`config.timeout` set equals the result with it absent, so no timeout
error is ever recorded at a step boundary. -/
theorem c4_timeout_config_inert (oracle : Oracle) (w : Workflow) (c : WConfig)
    (t : Int) (instOk : Except String Unit) (signal : Nat → Bool) :
    executeWorkflow oracle
        { w with config := some { stopOnError := c.stopOnError, timeout := some t } }
        instOk signal
      = executeWorkflow oracle
        { w with config := some { stopOnError := c.stopOnError, timeout := none } }
        instOk signal := by
  cases instOk with
  | error e => rfl
  | ok u =>
    simp only [executeWorkflow]
    rw [wfLoop_w_congr oracle signal
      { w with config := some { stopOnError := c.stopOnError, timeout := some t } }
      { w with config := some { stopOnError := c.stopOnError, timeout := none } }
      rfl rfl rfl (w.steps.length + 1) 0 _ initRunState]
    rfl

end Automato
